import Mathlib

/-!
# Verification of the muddery combat handler

Shallow embedding of `src/muddery/combat/base_combat_handler.py`
(`BaseCombatHandler`). The handler owns a roster of combatant characters
(a Python dict keyed by `dbref`, insertion-ordered, modelled as a list with
unique `dbref` keys), a `finished` flag, an optional timeout timer, and
emits messages to characters. External actor capabilities (message sink,
command set, `ndb` back-reference, `cast_skill`) are modelled as explicit
fields on the character record and as an event trace on the handler.
-/

namespace Muddery

/-- A combatant, as seen through the actor capability contract used by the
handler: identity (`dbref`), team id (`set_team`/`get_team`), liveness
(`is_alive`), notification sink presence (`has_account`), the session
back-reference (`ndb.combat_handler`), and the combat command set
(`cmdset` containing `CMDSET_COMBAT`). -/
structure Character where
  dbref : Nat
  team : Nat
  alive : Bool
  hasAccount : Bool
  ndbCombatHandler : Bool
  cmdsetCombat : Bool
  deriving Repr, DecidableEq

/-- The structured payload kinds sent through a character's message sink
(`character.msg({...})`), plus the status refresh `show_status()`. -/
inductive Msg where
  | joinedCombat
  | combatInfo
  | leftCombat
  | showStatus
  | combatFinishWin
  | combatFinishLose
  | combatFinishDraw
  | combatFinishEscaped
  | skillResult
  deriving Repr, DecidableEq

/-- An observable external effect of the handler: a message delivered to the
character with the given `dbref`, or an invocation of the external
`cast_skill` capability (caller dbref, skill key, target). -/
inductive Event where
  | msg (dbref : Nat) (m : Msg)
  | cast (caller skillKey target : Nat)
  deriving Repr, DecidableEq

/-- The combat handler state (`BaseCombatHandler`). `timer` is `none` when no
timer was ever scheduled, `some true` while the scheduled `DelayedCall` is
active, `some false` once it fired or was cancelled. `timerCancels` counts
calls to `timer.cancel()`; `stopCount` counts effective script stops;
`trace` is the ordered list of emitted external effects. -/
structure Handler where
  desc : String
  timeout : Nat
  characters : List Character
  finished : Bool
  timer : Option Bool
  timerCancels : Nat
  stopped : Bool
  stopCount : Nat
  trace : List Event
  deriving Repr, DecidableEq

/-- `at_script_creation`: the freshly created handler. -/
def at_script_creation : Handler :=
  { desc := "handles combat", timeout := 0, characters := [], finished := false,
    timer := none, timerCancels := 0, stopped := false, stopCount := 0, trace := [] }

/-- `show_combat(character)`: send `joined_combat` then `combat_info`
(the appearance snapshot), in that order. -/
def show_combat (s : Handler) (c : Character) : Handler :=
  { s with trace := s.trace ++ [.msg c.dbref .joinedCombat, .msg c.dbref .combatInfo] }

/-- The character-side effect of `_cleanup_character`: the back-reference
`ndb.combat_handler` is deleted and `CMDSET_COMBAT` is removed. -/
def cleanupChar (c : Character) : Character :=
  { c with ndbCombatHandler := false, cmdsetCombat := false }

/-- The messages `_cleanup_character` sends when the character has an
account: `left_combat` then the `show_status()` refresh. -/
def cleanupMsgs (c : Character) : List Event :=
  if c.hasAccount then [.msg c.dbref .leftCombat, .msg c.dbref .showStatus] else []

/-- A character released from combat: command set disabled and session
back-reference cleared. -/
def released (c : Character) : Prop :=
  c.cmdsetCombat = false ∧ c.ndbCombatHandler = false

instance (c : Character) : Decidable (released c) := by
  unfold released; infer_instance

/-- Cancel the timer if it is active (`if self.timer and self.timer.active():
self.timer.cancel()`). -/
def cancelTimer (s : Handler) : Handler :=
  if s.timer = some true then
    { s with timer := some false, timerCancels := s.timerCancels + 1 }
  else s

/-- `at_stop`: cancel the timer if active, then run `_cleanup_character` on
every character still in the roster. The roster dict itself is not cleared. -/
def at_stop (s : Handler) : Handler :=
  let s1 := cancelTimer s
  { s1 with characters := s1.characters.map cleanupChar,
            trace := s1.trace ++ s1.characters.flatMap cleanupMsgs }

/-- Modelled from the spec: the hosting framework's script `stop()` (Evennia
`DefaultScript.stop`, not part of this repository). Per the spec, all
termination paths "converge on releasing all actors and stopping the session
exactly once" and the shutdown path "must be safe to call even if finish() or
onTimeout() already ran", so stopping an already-stopped session is a no-op;
otherwise `stop()` runs the `at_stop` hook and discards the session. -/
def stop (s : Handler) : Handler :=
  if s.stopped then s
  else
    let s1 := at_stop s
    { s1 with stopped := true, stopCount := s1.stopCount + 1 }

/-- `at_server_shutdown`: just `self.stop()`. -/
def at_server_shutdown (s : Handler) : Handler :=
  stop s

/-- Insertion into the roster dict `self.characters[c.dbref] = c`:
overwrite in place if the key exists, else append (dict insertion order). -/
def dictInsert (chars : List Character) (c : Character) : List Character :=
  if chars.any (fun x => x.dbref == c.dbref) then
    chars.map (fun x => if x.dbref == c.dbref then c else x)
  else chars ++ [c]

/-- The actor capability `character.set_team(team)`. -/
def set_team (t : Nat) (c : Character) : Character := { c with team := t }

/-- The roster accumulated by the admission loops of `set_combat`: for every
team and every character of that team, `set_team` then insert into the dict. -/
def admissionRoster (teams : List (Nat × List Character))
    (init : List Character) : List Character :=
  teams.foldl
    (fun acc p => p.2.foldl (fun a c => dictInsert a (set_team p.1 c)) acc) init

/-- The admission effects on a roster member: grant the back-reference
(`character.ndb.combat_handler = self`) and add the combat command set
(`character.cmdset.add(settings.CMDSET_COMBAT)`). -/
def grantCombat (c : Character) : Character :=
  { c with ndbCombatHandler := true, cmdsetCombat := true }

/-- `set_combat(teams, desc, timeout)`: record description and timeout; for
every team and character, `set_team` and insert into the roster; then for
every roster member set the back-reference, add the combat command set and
(if it has an account) `show_combat`; finally schedule the timer when the
timeout is nonzero. (`start_combat` is a no-op hook.) -/
def set_combat (s : Handler) (teams : List (Nat × List Character))
    (desc : String) (timeout : Nat) : Handler :=
  let s1 := { s with desc := desc, timeout := timeout }
  let roster := admissionRoster teams s1.characters
  let s2 := { s1 with
    characters := roster.map grantCombat,
    trace := s1.trace ++ roster.flatMap (fun c =>
      if c.hasAccount then [.msg c.dbref .joinedCombat, .msg c.dbref .combatInfo]
      else []) }
  if timeout ≠ 0 then { s2 with timer := some true } else s2

/-- The loop of `can_finish`: accumulate the team ids of alive characters
into a set, returning `False` as soon as the set has more than one element. -/
def insertTeam (teams : List Nat) (t : Nat) : List Nat :=
  if t ∈ teams then teams else teams ++ [t]

/-- Body of the `can_finish` roster loop. -/
def canFinishLoop (teams : List Nat) : List Character → Bool
  | [] => true
  | c :: rest =>
    if c.alive then
      let teams2 := insertTeam teams c.team
      if teams2.length > 1 then false else canFinishLoop teams2 rest
    else canFinishLoop teams rest

/-- `can_finish`: `False` on an empty roster, else `True` iff at most one
distinct team id occurs among currently alive characters. -/
def can_finish (s : Handler) : Bool :=
  if s.characters.isEmpty then false
  else canFinishLoop [] s.characters

/-- The winning team computed by `finish`: the team of the first alive
character in roster iteration order (`None` when no one is alive). -/
def winnerTeam (chars : List Character) : Option Nat :=
  (chars.find? (fun c => c.alive)).map (fun c => c.team)

/-- The message batch of `set_combat_results(winners, losers)`: a `win`
message to every winner with an account, then a `lose` message to every
loser with an account. -/
def resultBatch (winners losers : List Character) : List Event :=
  (winners.filter (fun c => c.hasAccount)).map (fun c => .msg c.dbref .combatFinishWin)
    ++ (losers.filter (fun c => c.hasAccount)).map (fun c => .msg c.dbref .combatFinishLose)

/-- `set_combat_results(winners, losers)`: emit the win/lose batch. -/
def set_combat_results (s : Handler) (winners losers : List Character) : Handler :=
  { s with trace := s.trace ++ resultBatch winners losers }

/-- The win/lose message batch `finish` emits for a given roster. -/
def resultsMsgs (chars : List Character) : List Event :=
  resultBatch (chars.filter (fun c => some c.team == winnerTeam chars))
    (chars.filter (fun c => some c.team != winnerTeam chars))

/-- `finish()`: set `finished`, cancel the timer if active, and — when the
roster is non-empty — declare the team of the first alive character the
winner, send results, then `stop()`. There is no short-circuit on an
already-finished handler. -/
def finish (s : Handler) : Handler :=
  let s1 := { s with finished := true }
  let s2 := cancelTimer s1
  let s3 :=
    if s2.characters.isEmpty then s2
    else
      set_combat_results s2
        (s2.characters.filter (fun c => some c.team == winnerTeam s2.characters))
        (s2.characters.filter (fun c => some c.team != winnerTeam s2.characters))
  stop s3

/-- The draw message batch: a `draw` message to every roster character with
an account. -/
def drawMsgs (chars : List Character) : List Event :=
  (chars.filter (fun c => c.hasAccount)).map (fun c => .msg c.dbref .combatFinishDraw)

/-- `set_combat_draw`: a `draw` message to every character with an account. -/
def set_combat_draw (s : Handler) : Handler :=
  { s with trace := s.trace ++ drawMsgs s.characters }

/-- `at_timeout`: return immediately when `finished`; otherwise send the draw
messages and `stop()`. Note that it does not set `finished`. -/
def at_timeout (s : Handler) : Handler :=
  if s.finished then s
  else stop (set_combat_draw s)

/-- `prepare_skill(skill_key, caller, target)`: no-op when `finished`;
otherwise, if a caller is given, invoke its external `cast_skill`
capability (recorded in the trace) and then `finish()` when `can_finish()`.
The capability's game-rule effects are external to the handler. -/
def prepare_skill (s : Handler) (skillKey : Nat) (caller : Option Character)
    (target : Nat) : Handler :=
  if s.finished then s
  else
    match caller with
    | none => s
    | some c =>
      let s1 := { s with trace := s.trace ++ [.cast c.dbref skillKey target] }
      if can_finish s1 then finish s1 else s1

/-- `skill_escape(caller)`: if a caller is given, send it `escaped` when it
has an account; then, if it is in the roster, `_cleanup_character` it and
delete it from the roster. No termination check is made. -/
def skill_escape (s : Handler) (caller : Option Character) : Handler :=
  match caller with
  | none => s
  | some c =>
    let s1 :=
      if c.hasAccount then
        { s with trace := s.trace ++ [.msg c.dbref .combatFinishEscaped] }
      else s
    if s1.characters.any (fun x => x.dbref == c.dbref) then
      let s2 := { s1 with trace := s1.trace ++ cleanupMsgs c }
      { s2 with characters := s2.characters.filter (fun x => x.dbref != c.dbref) }
    else s1

/-- `remove_character(character)`: if present, clean it up, delete it from
the roster, then `finish()` when `can_finish()`. -/
def remove_character (s : Handler) (c : Character) : Handler :=
  if s.characters.any (fun x => x.dbref == c.dbref) then
    let s1 := { s with trace := s.trace ++ cleanupMsgs c }
    let s2 := { s1 with characters := s1.characters.filter (fun x => x.dbref != c.dbref) }
    if can_finish s2 then finish s2 else s2
  else s

/-- One step of the `can_finish` team accumulation, without the early exit:
alive characters contribute their team id to the accumulated set. -/
def teamStep (ts : List Nat) (c : Character) : List Nat :=
  if c.alive then insertTeam ts c.team else ts

/-- The characters admitted by `set_combat(teams, ...)` in admission order,
each with its team id recorded (`set_team`). -/
def admitChars (teams : List (Nat × List Character)) : List Character :=
  teams.flatMap (fun p => p.2.map (set_team p.1))

/-- The per-character admission messages of `set_combat`: `joined_combat`
strictly before the `combat_info` appearance snapshot, for characters with
an account. -/
def joinMsgs (c : Character) : List Event :=
  if c.hasAccount then [.msg c.dbref .joinedCombat, .msg c.dbref .combatInfo] else []

/-! Sample characters and sessions used as concrete inputs. -/

/-- An alive character of team 1 with an account, admitted into combat. -/
def chA : Character :=
  { dbref := 1, team := 1, alive := true, hasAccount := true,
    ndbCombatHandler := true, cmdsetCombat := true }

/-- An alive character of team 2 with an account, admitted into combat. -/
def chB : Character :=
  { dbref := 2, team := 2, alive := true, hasAccount := true,
    ndbCombatHandler := true, cmdsetCombat := true }

/-- `chA`, knocked out. -/
def chAdead : Character := { chA with alive := false }

/-- `chB`, knocked out. -/
def chBdead : Character := { chB with alive := false }

/-- An alive character of team 3 with an account, admitted into combat. -/
def chC : Character :=
  { dbref := 3, team := 3, alive := true, hasAccount := true,
    ndbCombatHandler := true, cmdsetCombat := true }

/-- A running session over the given roster, with an active timer. -/
def activeSession (chars : List Character) : Handler :=
  { desc := "demo", timeout := 30, characters := chars, finished := false,
    timer := some true, timerCancels := 0, stopped := false, stopCount := 0,
    trace := [] }

/-- A raw (not yet admitted) character with an account. -/
def rawChar (d : Nat) : Character :=
  { dbref := d, team := 0, alive := true, hasAccount := true,
    ndbCombatHandler := false, cmdsetCombat := false }

/-! ## Structural lemmas about the teardown helpers -/

@[simp]
lemma cleanupChar_dbref (c : Character) : (cleanupChar c).dbref = c.dbref := rfl

@[simp]
lemma cleanupChar_team (c : Character) : (cleanupChar c).team = c.team := rfl

@[simp]
lemma cleanupChar_alive (c : Character) : (cleanupChar c).alive = c.alive := rfl

@[simp]
lemma cleanupChar_hasAccount (c : Character) : (cleanupChar c).hasAccount = c.hasAccount := rfl

lemma released_cleanupChar (c : Character) : released (cleanupChar c) := by
  simp [released, cleanupChar]

@[simp]
lemma cancelTimer_characters (s : Handler) : (cancelTimer s).characters = s.characters := by
  unfold cancelTimer; split <;> rfl

@[simp]
lemma cancelTimer_trace (s : Handler) : (cancelTimer s).trace = s.trace := by
  unfold cancelTimer; split <;> rfl

@[simp]
lemma cancelTimer_stopped (s : Handler) : (cancelTimer s).stopped = s.stopped := by
  unfold cancelTimer; split <;> rfl

@[simp]
lemma cancelTimer_stopCount (s : Handler) : (cancelTimer s).stopCount = s.stopCount := by
  unfold cancelTimer; split <;> rfl

@[simp]
lemma cancelTimer_finished (s : Handler) : (cancelTimer s).finished = s.finished := by
  unfold cancelTimer; split <;> rfl

lemma cancelTimer_timer (s : Handler) :
    (cancelTimer s).timer = if s.timer = some true then some false else s.timer := by
  unfold cancelTimer; split <;> simp_all

lemma cancelTimer_timerCancels (s : Handler) :
    (cancelTimer s).timerCancels
      = s.timerCancels + if s.timer = some true then 1 else 0 := by
  unfold cancelTimer; split <;> simp_all

lemma cancelTimer_timer_ne (s : Handler) : (cancelTimer s).timer ≠ some true := by
  rw [cancelTimer_timer]; split <;> simp_all

lemma stop_stopped (s : Handler) : (stop s).stopped = true := by
  unfold stop; split
  · assumption
  · rfl

lemma stop_characters (s : Handler) :
    (stop s).characters
      = if s.stopped then s.characters else s.characters.map cleanupChar := by
  unfold stop at_stop; split <;> simp_all

lemma stop_trace (s : Handler) :
    (stop s).trace
      = s.trace ++ if s.stopped then [] else s.characters.flatMap cleanupMsgs := by
  unfold stop at_stop; split <;> simp_all

lemma stop_stopCount (s : Handler) :
    (stop s).stopCount = s.stopCount + if s.stopped then 0 else 1 := by
  unfold stop at_stop; split <;> simp_all

lemma stop_finished (s : Handler) : (stop s).finished = s.finished := by
  unfold stop at_stop; split <;> simp_all

lemma stop_timer (s : Handler) :
    (stop s).timer = if s.stopped then s.timer else (cancelTimer s).timer := by
  unfold stop at_stop; split <;> simp_all

lemma stop_timerCancels (s : Handler) :
    (stop s).timerCancels
      = if s.stopped then s.timerCancels else (cancelTimer s).timerCancels := by
  unfold stop at_stop; split <;> simp_all

/-! ## Field lemmas about `finish` -/

lemma finish_finished (s : Handler) : (finish s).finished = true := by
  unfold finish set_combat_results
  rw [stop_finished]
  split <;> simp

lemma finish_stopped (s : Handler) : (finish s).stopped = true := by
  unfold finish set_combat_results
  rw [stop_stopped]

lemma finish_characters (s : Handler) :
    (finish s).characters
      = if s.stopped then s.characters else s.characters.map cleanupChar := by
  unfold finish set_combat_results
  rw [stop_characters]
  split <;> simp

lemma finish_trace (s : Handler) :
    (finish s).trace
      = (s.trace ++ if s.characters.isEmpty then [] else resultsMsgs s.characters)
        ++ if s.stopped then [] else s.characters.flatMap cleanupMsgs := by
  unfold finish set_combat_results
  rw [stop_trace]
  split <;> simp_all [resultsMsgs]

lemma finish_stopCount (s : Handler) :
    (finish s).stopCount = s.stopCount + if s.stopped then 0 else 1 := by
  unfold finish set_combat_results
  rw [stop_stopCount]
  split <;> simp

lemma finish_timer (s : Handler) :
    (finish s).timer = if s.timer = some true then some false else s.timer := by
  unfold finish set_combat_results
  rw [stop_timer]
  split <;> split <;> simp_all [cancelTimer_timer] <;> (split <;> simp_all)

lemma finish_timer_ne (s : Handler) : (finish s).timer ≠ some true := by
  rw [finish_timer]; split <;> simp_all

lemma finish_timerCancels (s : Handler) :
    (finish s).timerCancels
      = s.timerCancels + if s.timer = some true then 1 else 0 := by
  unfold finish set_combat_results
  rw [stop_timerCancels]
  split <;> split <;> simp_all [cancelTimer_timerCancels, cancelTimer_timer] <;>
    (split <;> simp_all)

/-! ## Field lemmas about `at_timeout` and `at_server_shutdown` -/

lemma at_timeout_of_finished (s : Handler) (h : s.finished = true) :
    at_timeout s = s := by
  simp [at_timeout, h]

lemma at_timeout_eq_stop (s : Handler) (h : s.finished = false) :
    at_timeout s = stop (set_combat_draw s) := by
  simp [at_timeout, h]

@[simp]
lemma set_combat_draw_characters (s : Handler) :
    (set_combat_draw s).characters = s.characters := rfl

@[simp]
lemma set_combat_draw_stopped (s : Handler) :
    (set_combat_draw s).stopped = s.stopped := rfl

@[simp]
lemma set_combat_draw_trace (s : Handler) :
    (set_combat_draw s).trace = s.trace ++ drawMsgs s.characters := rfl

@[simp]
lemma set_combat_draw_stopCount (s : Handler) :
    (set_combat_draw s).stopCount = s.stopCount := rfl

@[simp]
lemma set_combat_draw_finished (s : Handler) :
    (set_combat_draw s).finished = s.finished := rfl

@[simp]
lemma set_combat_draw_timer (s : Handler) :
    (set_combat_draw s).timer = s.timer := rfl

/-! ## Invariance of the result batch under character cleanup -/

lemma winnerTeam_map_cleanupChar (l : List Character) :
    winnerTeam (l.map cleanupChar) = winnerTeam l := by
  induction l with
  | nil => rfl
  | cons c rest ih =>
    by_cases h : c.alive <;> simp [winnerTeam, List.find?, cleanupChar, h] <;>
      simpa [winnerTeam] using ih

lemma resultsMsgs_map_cleanupChar (l : List Character) :
    resultsMsgs (l.map cleanupChar) = resultsMsgs l := by
  unfold resultsMsgs resultBatch
  rw [winnerTeam_map_cleanupChar]
  simp [List.filter_map, List.map_map, Function.comp_def, cleanupChar]

/-! ## The termination predicate `can_finish` -/

lemma mem_insertTeam {a : Nat} (ts : List Nat) (t : Nat) :
    a ∈ insertTeam ts t ↔ a ∈ ts ∨ a = t := by
  unfold insertTeam
  split
  · rename_i h
    constructor
    · exact fun ha => Or.inl ha
    · rintro (ha | rfl)
      · exact ha
      · exact h
  · simp

lemma nodup_insertTeam (ts : List Nat) (t : Nat) (h : ts.Nodup) :
    (insertTeam ts t).Nodup := by
  unfold insertTeam
  split
  · exact h
  · rename_i hni
    simp [List.nodup_append, h, hni]

lemma length_le_insertTeam (ts : List Nat) (t : Nat) :
    ts.length ≤ (insertTeam ts t).length := by
  unfold insertTeam; split <;> simp

lemma length_le_foldl_teamStep (l : List Character) (ts : List Nat) :
    ts.length ≤ (l.foldl teamStep ts).length := by
  induction l generalizing ts with
  | nil => simp
  | cons c rest ih =>
    rw [List.foldl_cons]
    refine le_trans ?_ (ih (teamStep ts c))
    unfold teamStep
    split
    · exact length_le_insertTeam ts c.team
    · exact le_rfl

lemma canFinishLoop_iff (l : List Character) (ts : List Nat) (h : ts.length ≤ 1) :
    canFinishLoop ts l = true ↔ (l.foldl teamStep ts).length ≤ 1 := by
  induction l generalizing ts with
  | nil => simpa [canFinishLoop] using h
  | cons c rest ih =>
    by_cases hc : c.alive
    · by_cases h2 : (insertTeam ts c.team).length > 1
      · have hmono := length_le_foldl_teamStep rest (insertTeam ts c.team)
        simp only [canFinishLoop, hc, if_true, h2, List.foldl_cons, teamStep]
        constructor
        · intro hF; cases hF
        · intro hlen; omega
      · have h2' : (insertTeam ts c.team).length ≤ 1 := by omega
        simp only [canFinishLoop, hc, if_true, h2, if_false, List.foldl_cons, teamStep]
        exact ih _ h2'
    · simp only [canFinishLoop, hc, if_false, List.foldl_cons, teamStep]
      exact ih _ h

lemma mem_foldl_teamStep (l : List Character) (ts : List Nat) (a : Nat) :
    a ∈ l.foldl teamStep ts
      ↔ a ∈ ts ∨ a ∈ (l.filter (fun c => c.alive)).map (fun c => c.team) := by
  induction l generalizing ts with
  | nil => simp
  | cons c rest ih =>
    rw [List.foldl_cons, ih]
    unfold teamStep
    by_cases hc : c.alive <;> simp [hc, mem_insertTeam] <;> tauto

lemma nodup_foldl_teamStep (l : List Character) (ts : List Nat) (h : ts.Nodup) :
    (l.foldl teamStep ts).Nodup := by
  induction l generalizing ts with
  | nil => simpa
  | cons c rest ih =>
    rw [List.foldl_cons]
    refine ih _ ?_
    unfold teamStep
    split
    · exact nodup_insertTeam _ _ h
    · exact h

lemma length_foldl_teamStep_eq_card (l : List Character) :
    (l.foldl teamStep []).length
      = ((l.filter (fun c => c.alive)).map (fun c => c.team)).toFinset.card := by
  have hnd : (l.foldl teamStep []).Nodup := nodup_foldl_teamStep l [] (by simp)
  have hset : (l.foldl teamStep []).toFinset
      = ((l.filter (fun c => c.alive)).map (fun c => c.team)).toFinset := by
    ext a
    simp [List.mem_toFinset, mem_foldl_teamStep]
  rw [← List.toFinset_card_of_nodup hnd, hset]

lemma canFinishLoop_eq_teamStep (l : List Character) (ts : List Nat) :
    l.foldl teamStep ts
      = l.foldl (fun a c => if c.alive then insertTeam a c.team else a) ts := rfl

/-- Every member of a cleaned-up roster is released. -/
lemma released_of_mem_map_cleanup {l : List Character} {c : Character}
    (hc : c ∈ l.map cleanupChar) : released c := by
  rcases List.mem_map.mp hc with ⟨a, -, rfl⟩
  exact released_cleanupChar a

/-- Stopping an already-stopped session is a no-op. -/
lemma stop_of_stopped (s : Handler) (h : s.stopped = true) : stop s = s := by
  unfold stop
  rw [if_pos h]

/-- Cleanup messages are only `left_combat` and `show_status`: no win, lose
or draw payload ever comes from the release path. -/
lemma msg_not_mem_cleanup (l : List Character) (d : Nat) (m : Msg)
    (h1 : m ≠ Msg.leftCombat) (h2 : m ≠ Msg.showStatus) :
    Event.msg d m ∉ l.flatMap cleanupMsgs := by
  intro hmem
  rcases List.mem_flatMap.mp hmem with ⟨c, -, hc⟩
  unfold cleanupMsgs at hc
  split at hc
  · simp at hc
    rcases hc with ⟨-, hm⟩ | ⟨-, hm⟩
    · exact h1 hm
    · exact h2 hm
  · simp at hc

/-- Counting a `win`/`lose`-style message in a message batch built from a
character list reduces to counting the dbref. -/
lemma count_msg_map_self (l : List Character) (d : Nat) (m : Msg) :
    (l.map (fun c => Event.msg c.dbref m)).count (Event.msg d m)
      = (l.map (fun c => c.dbref)).count d := by
  induction l with
  | nil => rfl
  | cons c rest ih =>
    simp only [List.map_cons, List.count_cons, ih]
    congr 1
    simp only [beq_iff_eq, Event.msg.injEq, and_true]

/-- A message of one payload kind never occurs in a batch of another kind. -/
lemma count_msg_map_other (l : List Character) (d : Nat) (m m' : Msg)
    (h : m ≠ m') :
    (l.map (fun c => Event.msg c.dbref m')).count (Event.msg d m) = 0 := by
  rw [List.count_eq_zero]
  intro hmem
  rcases List.mem_map.mp hmem with ⟨c, -, heq⟩
  injection heq with h1 h2
  exact h h2.symm

/-- Filtering preserves distinctness of the dbref column. -/
lemma nodup_dbref_filter (l : List Character) (p : Character → Bool)
    (hnd : (l.map (fun c => c.dbref)).Nodup) :
    ((l.filter p).map (fun c => c.dbref)).Nodup :=
  ((List.filter_sublist l).map _).nodup hnd

/-- With distinct dbrefs, a roster member's dbref survives a filter iff the
member itself satisfies the predicate. -/
lemma mem_dbref_filter {l : List Character}
    (hnd : (l.map (fun c => c.dbref)).Nodup) (p : Character → Bool)
    {c : Character} (hc : c ∈ l) :
    c.dbref ∈ (l.filter p).map (fun x => x.dbref) ↔ p c = true := by
  constructor
  · intro h
    rcases List.mem_map.mp h with ⟨x, hx, hxd⟩
    rcases List.mem_filter.mp hx with ⟨hxl, hpx⟩
    have hxc : x = c := List.inj_on_of_nodup_map hnd hxl hc hxd
    rwa [hxc] at hpx
  · intro hp
    exact List.mem_map.mpr ⟨c, List.mem_filter.mpr ⟨hc, hp⟩, rfl⟩

/-- With distinct dbrefs, the filtered dbref column contains a member's
dbref exactly once when the member satisfies the predicate, else never. -/
lemma count_dbref_filter {l : List Character}
    (hnd : (l.map (fun c => c.dbref)).Nodup) (p : Character → Bool)
    {c : Character} (hc : c ∈ l) :
    ((l.filter p).map (fun x => x.dbref)).count c.dbref
      = if p c = true then 1 else 0 := by
  by_cases hp : p c = true
  · rw [if_pos hp]
    exact List.count_eq_one_of_mem (nodup_dbref_filter l p hnd)
      ((mem_dbref_filter hnd p hc).mpr hp)
  · rw [if_neg hp, List.count_eq_zero]
    intro hmem
    exact hp ((mem_dbref_filter hnd p hc).mp hmem)

/-- A non-empty list is not `isEmpty`. -/
lemma isEmpty_false_of_ne_nil {α : Type} {l : List α} (h : l ≠ []) :
    l.isEmpty = false := by
  cases l with
  | nil => exact absurd rfl h
  | cons a t => rfl

/-- How often the `finish` batch sends `win` to a given roster member:
once iff the member is on the winning team and has an account. -/
lemma count_win_resultsMsgs (l : List Character)
    (hnd : (l.map (fun c => c.dbref)).Nodup) {c : Character} (hc : c ∈ l) :
    (resultsMsgs l).count (Event.msg c.dbref Msg.combatFinishWin)
      = if some c.team = winnerTeam l ∧ c.hasAccount = true then 1 else 0 := by
  unfold resultsMsgs resultBatch
  rw [List.count_append, count_msg_map_self,
    count_msg_map_other _ _ _ _ (by simp), List.filter_filter,
    count_dbref_filter hnd _ hc]
  simp [Bool.and_eq_true]
  exact if_congr and_comm rfl rfl

/-- How often the `finish` batch sends `lose` to a given roster member:
once iff the member is off the winning team and has an account. -/
lemma count_lose_resultsMsgs (l : List Character)
    (hnd : (l.map (fun c => c.dbref)).Nodup) {c : Character} (hc : c ∈ l) :
    (resultsMsgs l).count (Event.msg c.dbref Msg.combatFinishLose)
      = if some c.team ≠ winnerTeam l ∧ c.hasAccount = true then 1 else 0 := by
  unfold resultsMsgs resultBatch
  rw [List.count_append, count_msg_map_self,
    count_msg_map_other _ _ _ _ (by simp), List.filter_filter,
    count_dbref_filter hnd _ hc]
  simp [Bool.and_eq_true]
  exact if_congr and_comm rfl rfl

/-- Removing the unique roster entry with a given dbref shortens the roster
by exactly one. -/
lemma length_filter_dbref_ne (l : List Character) (d : Nat)
    (hnd : (l.map (fun x => x.dbref)).Nodup)
    (h : ∃ c ∈ l, c.dbref = d) :
    (l.filter (fun x => x.dbref != d)).length + 1 = l.length := by
  induction l with
  | nil =>
    rcases h with ⟨c, hc, -⟩
    cases hc
  | cons a rest ih =>
    rw [List.map_cons, List.nodup_cons] at hnd
    by_cases hd : a.dbref = d
    · have hrest : rest.filter (fun x => x.dbref != d) = rest := by
        rw [List.filter_eq_self]
        intro x hx
        have hne : x.dbref ≠ d := by
          intro he
          exact hnd.1 (by
            rw [hd, ← he]
            exact List.mem_map.mpr ⟨x, hx, rfl⟩)
        simpa [bne_iff_ne] using hne
      simp [List.filter_cons, hd, hrest]
    · rcases h with ⟨c, hc, hcd⟩
      rcases List.mem_cons.mp hc with rfl | hcr
      · exact absurd hcd hd
      have hih := ih hnd.2 ⟨c, hcr, hcd⟩
      have hcond : (a.dbref != d) = true := by simpa [bne_iff_ne] using hd
      simp only [List.filter_cons, hcond, if_true, List.length_cons]
      omega

@[simp]
lemma set_team_dbref (t : Nat) (c : Character) : (set_team t c).dbref = c.dbref := rfl

@[simp]
lemma set_team_team (t : Nat) (c : Character) : (set_team t c).team = t := rfl

@[simp]
lemma set_team_hasAccount (t : Nat) (c : Character) :
    (set_team t c).hasAccount = c.hasAccount := rfl

@[simp]
lemma grantCombat_dbref (c : Character) : (grantCombat c).dbref = c.dbref := rfl

@[simp]
lemma grantCombat_ndb (c : Character) :
    (grantCombat c).ndbCombatHandler = true := rfl

@[simp]
lemma grantCombat_cmdset (c : Character) :
    (grantCombat c).cmdsetCombat = true := rfl

/-- Inserting a fresh dbref into the roster dict appends it. -/
lemma dictInsert_not_mem (acc : List Character) (c : Character)
    (h : ∀ a ∈ acc, a.dbref ≠ c.dbref) :
    dictInsert acc c = acc ++ [c] := by
  unfold dictInsert
  rw [if_neg]
  intro hany
  rcases List.any_eq_true.mp hany with ⟨a, ha, he⟩
  exact h a ha (by simpa using he)

/-- Folding dict insertion over characters whose dbrefs are fresh and
mutually distinct appends them in order. -/
lemma foldl_dictInsert_append (cs : List Character) (acc : List Character)
    (h : ∀ x ∈ cs, ∀ a ∈ acc, a.dbref ≠ x.dbref)
    (hnd : (cs.map (fun x => x.dbref)).Nodup) :
    cs.foldl dictInsert acc = acc ++ cs := by
  induction cs generalizing acc with
  | nil => simp
  | cons c rest ih =>
    rw [List.map_cons, List.nodup_cons] at hnd
    rw [List.foldl_cons,
      dictInsert_not_mem acc c (fun a ha => h c (List.mem_cons_self c rest) a ha)]
    rw [ih (acc ++ [c]) ?_ hnd.2]
    · rw [List.append_assoc, List.singleton_append]
    · intro x hx a ha
      rcases List.mem_append.mp ha with ha1 | ha2
      · exact h x (List.mem_cons_of_mem c hx) a ha1
      · rcases List.mem_singleton.mp ha2 with rfl
        intro he
        exact hnd.1 (he ▸ List.mem_map.mpr ⟨x, hx, rfl⟩)

/-- The roster accumulated by `set_combat`'s admission loops, starting from
an accumulator disjoint from the admitted characters, is the accumulator
followed by the admitted characters in order. -/
lemma teams_roster (teams : List (Nat × List Character)) (acc : List Character)
    (hdisj : ∀ x ∈ admitChars teams, ∀ a ∈ acc, a.dbref ≠ x.dbref)
    (hnd : ((admitChars teams).map (fun x => x.dbref)).Nodup) :
    admissionRoster teams acc = acc ++ admitChars teams := by
  unfold admissionRoster
  induction teams generalizing acc with
  | nil => simp [admitChars]
  | cons t rest ih =>
    have hA : admitChars (t :: rest)
        = t.2.map (set_team t.1) ++ admitChars rest := by
      simp [admitChars]
    rw [hA] at hdisj hnd
    rw [List.map_append, List.nodup_append] at hnd
    rw [List.foldl_cons, ← List.foldl_map (set_team t.1) dictInsert t.2 acc]
    rw [foldl_dictInsert_append (t.2.map (set_team t.1)) acc
      (fun x hx a ha => hdisj x (List.mem_append.mpr (Or.inl hx)) a ha) hnd.1]
    rw [ih (acc ++ t.2.map (set_team t.1)) ?_ hnd.2.1]
    · rw [hA, List.append_assoc]
    · intro x hx a ha
      rcases List.mem_append.mp ha with ha1 | ha2
      · exact hdisj x (List.mem_append.mpr (Or.inr hx)) a ha1
      · intro he
        exact hnd.2.2 (List.mem_map.mpr ⟨a, ha2, rfl⟩)
          (by rw [he]; exact List.mem_map.mpr ⟨x, hx, rfl⟩)

/-- The full state effect of `set_combat`, with the admission loops folded
into a single roster expression. -/
lemma set_combat_eq (s : Handler) (teams : List (Nat × List Character))
    (d : String) (t : Nat) :
    set_combat s teams d t
      = { s with
          desc := d,
          timeout := t,
          characters := (admissionRoster teams s.characters).map grantCombat,
          trace := s.trace ++ (admissionRoster teams s.characters).flatMap joinMsgs,
          timer := if t ≠ 0 then some true else s.timer } := by
  unfold set_combat joinMsgs
  split <;> rfl

/-- The full state effect of `skill_escape` on a roster member: the escaped
message (when the caller has an account), then the cleanup messages, and the
removal of the caller's roster entry. Nothing else changes. -/
lemma skill_escape_eq (s : Handler) (c : Character) (hc : c ∈ s.characters) :
    skill_escape s (some c)
      = { s with
          characters := s.characters.filter (fun x => x.dbref != c.dbref),
          trace := (s.trace ++ if c.hasAccount
              then [Event.msg c.dbref Msg.combatFinishEscaped] else [])
            ++ cleanupMsgs c } := by
  have hany : s.characters.any (fun x => x.dbref == c.dbref) = true :=
    List.any_eq_true.mpr ⟨c, hc, by simp⟩
  cases hacc : c.hasAccount <;> simp [skill_escape, hacc, hany, cleanupMsgs]

/-! ## Claim theorems -/

/-- C4: `can_finish` returns `true` iff the roster is non-empty and the set
of distinct team ids among currently-alive roster characters has cardinality
at most one. In particular it is `false` on an empty roster, `false` while
two or more distinct teams have alive members, and `true` on a non-empty
roster with no alive member (the alive-team set is then empty). -/
theorem can_finish_iff (s : Handler) :
    can_finish s = true ↔
      s.characters ≠ [] ∧
        ((s.characters.filter (fun c => c.alive)).map
            (fun c => c.team)).toFinset.card ≤ 1 := by
  unfold can_finish
  by_cases hE : s.characters.isEmpty = true
  · have : s.characters = [] := by simpa [List.isEmpty_iff] using hE
    simp [hE, this]
  · have hne : s.characters ≠ [] := by simpa [List.isEmpty_iff] using hE
    rw [if_neg (by simpa using hE)]
    rw [canFinishLoop_iff s.characters [] (by simp),
      length_foldl_teamStep_eq_card]
    simp [hne]

/-- C3 (amended): after `finish()` every subsequent `prepare_skill` call is a
silent no-op — `finished` is `true`, so the caller's `cast_skill` capability
is not invoked and the state is unchanged. (The timeout and shutdown paths do
not set `finished`, so they do not enjoy this guard; see the counterexample.) -/
theorem prepare_skill_after_finish (s : Handler) (skillKey : Nat)
    (caller : Option Character) (target : Nat) :
    prepare_skill (finish s) skillKey caller target = finish s := by
  unfold prepare_skill
  rw [if_pos (finish_finished s)]

/-- C3 counterexample: a session of two alive teams is terminated by the
timer (`at_timeout` sends the draw batch and stops the session), yet a later
`prepare_skill` still invokes the caster's `cast_skill` capability and
changes the state, because `at_timeout` never sets `finished`. -/
theorem prepare_skill_after_timeout_cex :
    Event.cast 1 5 2
        ∈ (prepare_skill (at_timeout (activeSession [chA, chB])) 5 (some chA) 2).trace
      ∧ Event.cast 1 5 2 ∉ (at_timeout (activeSession [chA, chB])).trace
      ∧ prepare_skill (at_timeout (activeSession [chA, chB])) 5 (some chA) 2
          ≠ at_timeout (activeSession [chA, chB]) := by
  decide

/-- C1 (amended): calling `finish()` twice on a session with a non-empty
roster cancels the timeout timer exactly once (the second call finds it
inactive) and stops the session exactly once, but the second call is not a
no-op: it re-emits the whole win/lose notification batch, because `finish`
itself has no short-circuit on the `finished` flag and `at_stop` does not
clear the roster. -/
theorem finish_twice_amended (s : Handler) (h : s.characters ≠ []) :
    (finish (finish s)).trace = (finish s).trace ++ resultsMsgs s.characters
      ∧ (finish (finish s)).timerCancels = (finish s).timerCancels
      ∧ (finish (finish s)).stopCount = (finish s).stopCount
      ∧ (s.timer = some true → (finish s).timerCancels = s.timerCancels + 1) := by
  refine ⟨?_, ?_, ?_, ?_⟩
  · rw [finish_trace (finish s)]
    rw [finish_stopped, finish_characters]
    by_cases hstop : s.stopped = true
    · have hE : (if s.stopped = true then s.characters
          else s.characters.map cleanupChar).isEmpty = false := by
        simp [hstop, List.isEmpty_iff, h]
      simp [hstop, hE, List.isEmpty_iff, h]
    · have hstop' : s.stopped = false := by simpa using hstop
      simp [hstop', List.isEmpty_iff, h, resultsMsgs_map_cleanupChar]
  · rw [finish_timerCancels (finish s)]
    simp [finish_timer_ne s]
  · rw [finish_stopCount (finish s), finish_stopped]
    simp
  · intro ht
    rw [finish_timerCancels, ht]
    simp

/-- C1 counterexample: on a concrete two-character session, the second
`finish()` call re-sends the win notification (two `win` messages to
character 1 in total) and the resulting state differs from the state after
one call — the second call is not a no-op and the win/lose batch is emitted
twice. -/
theorem finish_twice_cex :
    ((finish (finish (activeSession [chA, chBdead]))).trace.count
        (Event.msg 1 Msg.combatFinishWin) = 2)
      ∧ finish (finish (activeSession [chA, chBdead]))
          ≠ finish (activeSession [chA, chBdead]) := by
  decide

/-- C1 witness for `finish_twice_amended` at a concrete session. -/
theorem finish_twice_amended_witness :
    (activeSession [chA, chBdead]).characters ≠ []
      ∧ ((finish (finish (activeSession [chA, chBdead]))).trace
            = (finish (activeSession [chA, chBdead])).trace
              ++ resultsMsgs (activeSession [chA, chBdead]).characters
          ∧ (finish (finish (activeSession [chA, chBdead]))).timerCancels
              = (finish (activeSession [chA, chBdead])).timerCancels
          ∧ (finish (finish (activeSession [chA, chBdead]))).stopCount
              = (finish (activeSession [chA, chBdead])).stopCount
          ∧ ((activeSession [chA, chBdead]).timer = some true →
              (finish (activeSession [chA, chBdead])).timerCancels
                = (activeSession [chA, chBdead]).timerCancels + 1)) :=
  ⟨by decide, finish_twice_amended (activeSession [chA, chBdead]) (by decide)⟩

/-- C2 (amended): after `finish()`, after a timer-fired `at_timeout`, and
after `at_server_shutdown()` on a running session, every character still
recorded in the roster has its combat command set disabled and its session
back-reference cleared. (The roster mapping itself is *not* emptied by any
of these paths; see the counterexample.) -/
theorem termination_releases_actors (s : Handler) (hstop : s.stopped = false) :
    (∀ c ∈ (finish s).characters, released c)
      ∧ (s.finished = false → ∀ c ∈ (at_timeout s).characters, released c)
      ∧ (∀ c ∈ (at_server_shutdown s).characters, released c) := by
  refine ⟨?_, ?_, ?_⟩
  · rw [finish_characters]
    simp only [hstop, if_false, Bool.false_eq_true]
    exact fun c hc => released_of_mem_map_cleanup hc
  · intro hf
    rw [at_timeout_eq_stop s hf, stop_characters]
    simp only [set_combat_draw_stopped, set_combat_draw_characters, hstop,
      if_false, Bool.false_eq_true]
    exact fun c hc => released_of_mem_map_cleanup hc
  · unfold at_server_shutdown
    rw [stop_characters]
    simp only [hstop, if_false, Bool.false_eq_true]
    exact fun c hc => released_of_mem_map_cleanup hc

/-- C6: when the timeout fires on an already-finished session the handler
does nothing; otherwise every character with an account receives exactly the
draw batch, all roster characters are released through the same `at_stop`
teardown as `finish()` (no winner/loser is computed: only draw and cleanup
messages are appended), and the session is stopped exactly once. -/
theorem at_timeout_spec (s : Handler) :
    (s.finished = true → at_timeout s = s)
      ∧ (s.finished = false → s.stopped = false →
          (at_timeout s).trace
              = s.trace ++ drawMsgs s.characters ++ s.characters.flatMap cleanupMsgs
            ∧ (∀ c ∈ (at_timeout s).characters, released c)
            ∧ (at_timeout s).stopCount = s.stopCount + 1
            ∧ (at_timeout s).stopped = true) := by
  constructor
  · exact at_timeout_of_finished s
  · intro hf hstop
    rw [at_timeout_eq_stop s hf]
    refine ⟨?_, ?_, ?_, stop_stopped _⟩
    · rw [stop_trace]
      simp [hstop, List.append_assoc]
    · rw [stop_characters]
      simp only [set_combat_draw_stopped, set_combat_draw_characters, hstop,
        if_false, Bool.false_eq_true]
      exact fun c hc => released_of_mem_map_cleanup hc
    · rw [stop_stopCount]
      simp [hstop]

/-- C6 witness for `at_timeout_spec` at a concrete unfinished session. -/
theorem at_timeout_spec_witness :
    (activeSession [chA, chB]).finished = false
      ∧ (activeSession [chA, chB]).stopped = false
      ∧ ((at_timeout (activeSession [chA, chB])).trace
            = (activeSession [chA, chB]).trace
              ++ drawMsgs (activeSession [chA, chB]).characters
              ++ (activeSession [chA, chB]).characters.flatMap cleanupMsgs
          ∧ (∀ c ∈ (at_timeout (activeSession [chA, chB])).characters, released c)
          ∧ (at_timeout (activeSession [chA, chB])).stopCount
              = (activeSession [chA, chB]).stopCount + 1
          ∧ (at_timeout (activeSession [chA, chB])).stopped = true) :=
  ⟨by decide, by decide,
    (at_timeout_spec (activeSession [chA, chB])).2 (by decide) (by decide)⟩

/-- C7: forced shutdown (`at_server_shutdown`) on a running session releases
every remaining roster character, cancels the timer when it is pending, and
appends only cleanup messages (`left_combat`/`show_status`) — never a win,
lose or draw payload. It is safe to call after `finish()` or after a fired
timeout: the session is then already stopped and the call is a no-op. The
framework `stop()` is modelled from the spec (see `stop`). -/
theorem at_server_shutdown_spec (s : Handler) :
    (s.stopped = false →
        (at_server_shutdown s).trace = s.trace ++ s.characters.flatMap cleanupMsgs
          ∧ (∀ c ∈ (at_server_shutdown s).characters, released c)
          ∧ (at_server_shutdown s).timer ≠ some true
          ∧ (s.timer = some true →
              (at_server_shutdown s).timerCancels = s.timerCancels + 1)
          ∧ (∀ d, Event.msg d Msg.combatFinishWin ∉ s.characters.flatMap cleanupMsgs
              ∧ Event.msg d Msg.combatFinishLose ∉ s.characters.flatMap cleanupMsgs
              ∧ Event.msg d Msg.combatFinishDraw ∉ s.characters.flatMap cleanupMsgs))
      ∧ at_server_shutdown (finish s) = finish s
      ∧ (s.finished = false → at_server_shutdown (at_timeout s) = at_timeout s) := by
  refine ⟨?_, ?_, ?_⟩
  · intro hstop
    unfold at_server_shutdown
    refine ⟨?_, ?_, ?_, ?_, ?_⟩
    · rw [stop_trace]
      simp [hstop]
    · rw [stop_characters]
      simp only [hstop, if_false, Bool.false_eq_true]
      exact fun c hc => released_of_mem_map_cleanup hc
    · rw [stop_timer]
      simp only [hstop, if_false, Bool.false_eq_true]
      exact cancelTimer_timer_ne s
    · intro ht
      rw [stop_timerCancels]
      simp [hstop, cancelTimer_timerCancels, ht]
    · intro d
      exact ⟨msg_not_mem_cleanup _ _ _ (by simp) (by simp),
        msg_not_mem_cleanup _ _ _ (by simp) (by simp),
        msg_not_mem_cleanup _ _ _ (by simp) (by simp)⟩
  · unfold at_server_shutdown
    exact stop_of_stopped _ (finish_stopped s)
  · intro hf
    unfold at_server_shutdown
    refine stop_of_stopped _ ?_
    rw [at_timeout_eq_stop s hf]
    exact stop_stopped _

/-- C7 witness for `at_server_shutdown_spec` at a concrete running session
with a pending timer. -/
theorem at_server_shutdown_spec_witness :
    (activeSession [chA, chB]).stopped = false
      ∧ ((at_server_shutdown (activeSession [chA, chB])).trace
            = (activeSession [chA, chB]).trace
              ++ (activeSession [chA, chB]).characters.flatMap cleanupMsgs
          ∧ (∀ c ∈ (at_server_shutdown (activeSession [chA, chB])).characters,
              released c)
          ∧ (at_server_shutdown (activeSession [chA, chB])).timer ≠ some true
          ∧ ((activeSession [chA, chB]).timer = some true →
              (at_server_shutdown (activeSession [chA, chB])).timerCancels
                = (activeSession [chA, chB]).timerCancels + 1)
          ∧ (∀ d, Event.msg d Msg.combatFinishWin
                ∉ (activeSession [chA, chB]).characters.flatMap cleanupMsgs
              ∧ Event.msg d Msg.combatFinishLose
                  ∉ (activeSession [chA, chB]).characters.flatMap cleanupMsgs
              ∧ Event.msg d Msg.combatFinishDraw
                  ∉ (activeSession [chA, chB]).characters.flatMap cleanupMsgs)) :=
  ⟨by decide, (at_server_shutdown_spec (activeSession [chA, chB])).1 (by decide)⟩

/-- C2 counterexample: on a concrete session, the roster is not empty after
`finish()` — `at_stop` cleans each character but never clears the
`characters` dict. -/
theorem finish_roster_not_empty_cex :
    (finish (activeSession [chA, chBdead])).characters ≠ [] := by
  decide

/-- C2 witness for `termination_releases_actors` at a concrete session. -/
theorem termination_releases_actors_witness :
    (activeSession [chA, chB]).stopped = false
      ∧ ((∀ c ∈ (finish (activeSession [chA, chB])).characters, released c)
          ∧ ((activeSession [chA, chB]).finished = false →
              ∀ c ∈ (at_timeout (activeSession [chA, chB])).characters, released c)
          ∧ (∀ c ∈ (at_server_shutdown (activeSession [chA, chB])).characters,
              released c)) :=
  ⟨by decide, termination_releases_actors (activeSession [chA, chB]) (by decide)⟩

/-- C5: when `finish()` runs on a non-empty roster with distinct dbrefs, the
winning team is the team of the first currently-alive character in roster
iteration order; every roster character with an account on that team
receives the `win` notification exactly once, every other roster character
with an account receives the `lose` notification exactly once (dead members
of other teams included), and characters without an account receive
neither. -/
theorem finish_results_spec (s : Handler)
    (hne : s.characters ≠ [])
    (hnd : (s.characters.map (fun c => c.dbref)).Nodup)
    (hstop : s.stopped = false)
    (htr : s.trace = []) :
    winnerTeam s.characters
        = (s.characters.find? (fun c => c.alive)).map (fun c => c.team)
      ∧ ∀ c ∈ s.characters,
          ((finish s).trace.count (Event.msg c.dbref Msg.combatFinishWin)
              = if some c.team = winnerTeam s.characters ∧ c.hasAccount = true
                then 1 else 0)
            ∧ ((finish s).trace.count (Event.msg c.dbref Msg.combatFinishLose)
              = if some c.team ≠ winnerTeam s.characters ∧ c.hasAccount = true
                then 1 else 0) := by
  have hE : s.characters.isEmpty = false := isEmpty_false_of_ne_nil hne
  have htrace : (finish s).trace
      = resultsMsgs s.characters ++ s.characters.flatMap cleanupMsgs := by
    rw [finish_trace, htr]
    simp [hE, hstop]
  refine ⟨rfl, ?_⟩
  intro c hc
  constructor
  · rw [htrace, List.count_append, count_win_resultsMsgs s.characters hnd hc,
      List.count_eq_zero.mpr (msg_not_mem_cleanup _ _ _ (by simp) (by simp))]
    exact Nat.add_zero _
  · rw [htrace, List.count_append, count_lose_resultsMsgs s.characters hnd hc,
      List.count_eq_zero.mpr (msg_not_mem_cleanup _ _ _ (by simp) (by simp))]
    exact Nat.add_zero _

/-- C5 witness for `finish_results_spec` at a concrete session in which team
1 has the only alive character. -/
theorem finish_results_spec_witness :
    (activeSession [chA, chBdead]).characters ≠ []
      ∧ ((activeSession [chA, chBdead]).characters.map (fun c => c.dbref)).Nodup
      ∧ (activeSession [chA, chBdead]).stopped = false
      ∧ (activeSession [chA, chBdead]).trace = []
      ∧ (winnerTeam (activeSession [chA, chBdead]).characters
            = ((activeSession [chA, chBdead]).characters.find?
                (fun c => c.alive)).map (fun c => c.team)
          ∧ ∀ c ∈ (activeSession [chA, chBdead]).characters,
              ((finish (activeSession [chA, chBdead])).trace.count
                  (Event.msg c.dbref Msg.combatFinishWin)
                  = if some c.team = winnerTeam (activeSession [chA, chBdead]).characters
                        ∧ c.hasAccount = true
                    then 1 else 0)
                ∧ ((finish (activeSession [chA, chBdead])).trace.count
                    (Event.msg c.dbref Msg.combatFinishLose)
                    = if some c.team ≠ winnerTeam (activeSession [chA, chBdead]).characters
                          ∧ c.hasAccount = true
                      then 1 else 0)) :=
  ⟨by decide, by decide, by decide, by decide,
    finish_results_spec (activeSession [chA, chBdead])
      (by decide) (by decide) (by decide) (by decide)⟩

/-- C10: when `finish()` runs on a non-empty roster in which nobody is
alive, no winning team is selected (the placeholder stays `None`, which the
code compares against actual team ids and never matches), so no `win`
message is emitted at all and every roster character with an account
receives the `lose` notification. -/
theorem finish_double_knockout_spec (s : Handler)
    (hne : s.characters ≠ [])
    (hdead : ∀ c ∈ s.characters, c.alive = false)
    (hstop : s.stopped = false)
    (htr : s.trace = []) :
    winnerTeam s.characters = none
      ∧ (∀ d, Event.msg d Msg.combatFinishWin ∉ (finish s).trace)
      ∧ (∀ c ∈ s.characters, c.hasAccount = true →
          Event.msg c.dbref Msg.combatFinishLose ∈ (finish s).trace) := by
  have hwt : winnerTeam s.characters = none := by
    unfold winnerTeam
    rw [List.find?_eq_none.mpr]
    · rfl
    · intro x hx
      simp [hdead x hx]
  have hE : s.characters.isEmpty = false := isEmpty_false_of_ne_nil hne
  have htrace : (finish s).trace
      = resultsMsgs s.characters ++ s.characters.flatMap cleanupMsgs := by
    rw [finish_trace, htr]
    simp [hE, hstop]
  refine ⟨hwt, ?_, ?_⟩
  · intro d hmem
    rw [htrace] at hmem
    rcases List.mem_append.mp hmem with hm | hm
    · unfold resultsMsgs resultBatch at hm
      rw [hwt] at hm
      rcases List.mem_append.mp hm with hm2 | hm2
      · rcases List.mem_map.mp hm2 with ⟨x, hx, -⟩
        rcases List.mem_filter.mp (List.mem_filter.mp hx).1 with ⟨-, hcond⟩
        simp at hcond
      · rcases List.mem_map.mp hm2 with ⟨x, -, heq⟩
        injection heq with h1 h2
        exact Msg.noConfusion h2
    · exact msg_not_mem_cleanup _ _ _ (by simp) (by simp) hm
  · intro c hc hacc
    rw [htrace]
    refine List.mem_append.mpr (Or.inl ?_)
    unfold resultsMsgs resultBatch
    rw [hwt]
    refine List.mem_append.mpr (Or.inr ?_)
    refine List.mem_map.mpr ⟨c, ?_, rfl⟩
    refine List.mem_filter.mpr ⟨List.mem_filter.mpr ⟨hc, ?_⟩, hacc⟩
    simp

/-- C8: `skill_escape` on a roster member removes exactly that member from
the roster (everything else stays, in order), sends it exactly one
`escaped` notification when it has an account (none otherwise) followed by
its own cleanup messages, touches no other character's messages or roster
entry, and neither evaluates the termination predicate nor calls `finish`:
the `finished` flag, stop counter and timer are all unchanged. -/
theorem skill_escape_spec (s : Handler) (c : Character)
    (hc : c ∈ s.characters)
    (hnd : (s.characters.map (fun x => x.dbref)).Nodup) :
    (skill_escape s (some c)).characters
        = s.characters.filter (fun x => x.dbref != c.dbref)
      ∧ (skill_escape s (some c)).characters.length + 1 = s.characters.length
      ∧ (skill_escape s (some c)).trace
          = (s.trace ++ if c.hasAccount
              then [Event.msg c.dbref Msg.combatFinishEscaped] else [])
            ++ cleanupMsgs c
      ∧ (skill_escape s (some c)).finished = s.finished
      ∧ (skill_escape s (some c)).stopped = s.stopped
      ∧ (skill_escape s (some c)).stopCount = s.stopCount
      ∧ (skill_escape s (some c)).timer = s.timer
      ∧ (skill_escape s (some c)).timerCancels = s.timerCancels := by
  rw [skill_escape_eq s c hc]
  refine ⟨rfl, ?_, rfl, rfl, rfl, rfl, rfl, rfl⟩
  exact length_filter_dbref_ne s.characters c.dbref hnd ⟨c, hc, rfl⟩

/-- C8 witness for `skill_escape_spec`: character 3 escapes from a
three-character session. -/
theorem skill_escape_spec_witness :
    chC ∈ (activeSession [chA, chB, chC]).characters
      ∧ ((activeSession [chA, chB, chC]).characters.map (fun x => x.dbref)).Nodup
      ∧ ((skill_escape (activeSession [chA, chB, chC]) (some chC)).characters
            = (activeSession [chA, chB, chC]).characters.filter
                (fun x => x.dbref != chC.dbref)
          ∧ (skill_escape (activeSession [chA, chB, chC]) (some chC)).characters.length
                + 1 = (activeSession [chA, chB, chC]).characters.length
          ∧ (skill_escape (activeSession [chA, chB, chC]) (some chC)).trace
              = ((activeSession [chA, chB, chC]).trace ++ if chC.hasAccount
                  then [Event.msg chC.dbref Msg.combatFinishEscaped] else [])
                ++ cleanupMsgs chC
          ∧ (skill_escape (activeSession [chA, chB, chC]) (some chC)).finished
              = (activeSession [chA, chB, chC]).finished
          ∧ (skill_escape (activeSession [chA, chB, chC]) (some chC)).stopped
              = (activeSession [chA, chB, chC]).stopped
          ∧ (skill_escape (activeSession [chA, chB, chC]) (some chC)).stopCount
              = (activeSession [chA, chB, chC]).stopCount
          ∧ (skill_escape (activeSession [chA, chB, chC]) (some chC)).timer
              = (activeSession [chA, chB, chC]).timer
          ∧ (skill_escape (activeSession [chA, chB, chC]) (some chC)).timerCancels
              = (activeSession [chA, chB, chC]).timerCancels) :=
  ⟨by decide, by decide,
    skill_escape_spec (activeSession [chA, chB, chC]) chC (by decide) (by decide)⟩

/-- C9: admitting a non-empty team mapping with at least two distinct teams
into a fresh session records each actor's team (`admitChars`), inserts each
actor into the roster exactly once (the dbref column stays duplicate-free),
grants every roster member the back-reference and the combat command set,
sends each actor with an account the `joined_combat` event strictly before
its `combat_info` appearance snapshot (the per-actor `joinMsgs` block),
leaves `finished` false, and schedules the timer iff the timeout is
positive. -/
theorem set_combat_spec (s : Handler) (teams : List (Nat × List Character))
    (d : String) (t : Nat)
    (hfresh : s.characters = []) (hfin : s.finished = false)
    (htimer : s.timer = none)
    (hne : teams ≠ [])
    (h2 : 2 ≤ (teams.map (fun p => p.1)).toFinset.card)
    (hnd : ((admitChars teams).map (fun c => c.dbref)).Nodup) :
    (set_combat s teams d t).characters = (admitChars teams).map grantCombat
      ∧ (∀ c ∈ (set_combat s teams d t).characters,
          c.ndbCombatHandler = true ∧ c.cmdsetCombat = true)
      ∧ ((set_combat s teams d t).characters.map (fun c => c.dbref)).Nodup
      ∧ (set_combat s teams d t).trace
          = s.trace ++ (admitChars teams).flatMap joinMsgs
      ∧ (set_combat s teams d t).finished = false
      ∧ ((set_combat s teams d t).timer = some true ↔ 0 < t) := by
  have hroster : admissionRoster teams s.characters = admitChars teams := by
    rw [hfresh]
    exact teams_roster teams []
      (fun x hx a ha => absurd ha (List.not_mem_nil a)) hnd
  have hsc : set_combat s teams d t
      = { s with
          desc := d,
          timeout := t,
          characters := (admitChars teams).map grantCombat,
          trace := s.trace ++ (admitChars teams).flatMap joinMsgs,
          timer := if t ≠ 0 then some true else s.timer } := by
    rw [set_combat_eq, hroster]
  rw [hsc]
  refine ⟨rfl, ?_, ?_, rfl, hfin, ?_⟩
  · intro c hcmem
    rcases List.mem_map.mp hcmem with ⟨x, -, rfl⟩
    exact ⟨rfl, rfl⟩
  · simpa [List.map_map, Function.comp_def] using hnd
  · by_cases ht : t = 0
    · simp [ht, htimer]
    · simp [ht, Nat.pos_of_ne_zero ht]

/-- C9 witness for `set_combat_spec`: a fresh session admitting two
one-character teams with a 20-second timeout. -/
theorem set_combat_spec_witness :
    at_script_creation.characters = []
      ∧ at_script_creation.finished = false
      ∧ at_script_creation.timer = none
      ∧ [(1, [rawChar 1]), (2, [rawChar 2])] ≠ ([] : List (Nat × List Character))
      ∧ 2 ≤ (([(1, [rawChar 1]), (2, [rawChar 2])].map
            (fun p => p.1)).toFinset.card : Nat)
      ∧ ((admitChars [(1, [rawChar 1]), (2, [rawChar 2])]).map
          (fun c => c.dbref)).Nodup
      ∧ ((set_combat at_script_creation [(1, [rawChar 1]), (2, [rawChar 2])]
              "demo" 20).characters
            = (admitChars [(1, [rawChar 1]), (2, [rawChar 2])]).map grantCombat
          ∧ (∀ c ∈ (set_combat at_script_creation
                [(1, [rawChar 1]), (2, [rawChar 2])] "demo" 20).characters,
              c.ndbCombatHandler = true ∧ c.cmdsetCombat = true)
          ∧ ((set_combat at_script_creation [(1, [rawChar 1]), (2, [rawChar 2])]
                "demo" 20).characters.map (fun c => c.dbref)).Nodup
          ∧ (set_combat at_script_creation [(1, [rawChar 1]), (2, [rawChar 2])]
                "demo" 20).trace
              = at_script_creation.trace
                ++ (admitChars [(1, [rawChar 1]), (2, [rawChar 2])]).flatMap joinMsgs
          ∧ (set_combat at_script_creation [(1, [rawChar 1]), (2, [rawChar 2])]
                "demo" 20).finished = false
          ∧ ((set_combat at_script_creation [(1, [rawChar 1]), (2, [rawChar 2])]
                "demo" 20).timer = some true ↔ 0 < 20)) :=
  ⟨by decide, by decide, by decide, by decide, by decide, by decide,
    set_combat_spec at_script_creation [(1, [rawChar 1]), (2, [rawChar 2])]
      "demo" 20 (by decide) (by decide) (by decide) (by decide)
      (by decide) (by decide)⟩

/-- C10 witness for `finish_double_knockout_spec` at a concrete
double-knockout session. -/
theorem finish_double_knockout_spec_witness :
    (activeSession [chAdead, chBdead]).characters ≠ []
      ∧ (∀ c ∈ (activeSession [chAdead, chBdead]).characters, c.alive = false)
      ∧ (activeSession [chAdead, chBdead]).stopped = false
      ∧ (activeSession [chAdead, chBdead]).trace = []
      ∧ (winnerTeam (activeSession [chAdead, chBdead]).characters = none
          ∧ (∀ d, Event.msg d Msg.combatFinishWin
                ∉ (finish (activeSession [chAdead, chBdead])).trace)
          ∧ (∀ c ∈ (activeSession [chAdead, chBdead]).characters,
              c.hasAccount = true →
                Event.msg c.dbref Msg.combatFinishLose
                  ∈ (finish (activeSession [chAdead, chBdead])).trace)) :=
  ⟨by decide, by decide, by decide, by decide,
    finish_double_knockout_spec (activeSession [chAdead, chBdead])
      (by decide) (by decide) (by decide) (by decide)⟩

end Muddery
